import Mathlib

/-!
Verification of the quiznet-tcp-udp session coordinator.

Shallow embedding of `src/tcp_quiz/server_tcp.py` (class `TCPServer`) and
`src/udp_quiz/server_udp.py` (class `UDPQuizServer`).  Python dicts are
modelled as insertion-ordered association lists (update keeps the position,
fresh keys append at the end, exactly as CPython dicts behave), Python sets
as lists with membership semantics, sockets and UDP addresses as naturals,
and JSON integer fields as `Option Int` (`none` = the field is missing or
not an integer).  Socket sends are recorded as events; a send failure is
modelled by a predicate `fails` telling which endpoints raise on `send`.
-/

namespace QuizNet

/-! ## Python-dict primitives (insertion-ordered association lists) -/

/-- Lookup `d[k]` (`None` when absent): first entry with key `k`. -/
def dictLookup {α β : Type} [DecidableEq α] (k : α) : List (α × β) → Option β
  | [] => none
  | (a, b) :: t => if a = k then some b else dictLookup k t

/-- Assignment `d[k] = v`: update in place when `k` is present, else append at the end
(CPython dicts preserve insertion order and keep the slot on update). -/
def dictInsert {α β : Type} [DecidableEq α] (k : α) (v : β) : List (α × β) → List (α × β)
  | [] => [(k, v)]
  | (a, b) :: t => if a = k then (a, v) :: t else (a, b) :: dictInsert k v t

/-- Deletion `del d[k]`: removes the entry with key `k` (keys are unique in a dict,
so removing the first occurrence is the dict semantics). -/
def dictErase {α β : Type} [DecidableEq α] (k : α) : List (α × β) → List (α × β)
  | [] => []
  | (a, b) :: t => if a = k then t else (a, b) :: dictErase k t

/-- Python `d.setdefault(k, v)`: insert `(k, v)` only when `k` is absent. -/
def dictSetdefault {α β : Type} [DecidableEq α] (k : α) (v : β) (l : List (α × β)) :
    List (α × β) :=
  if (dictLookup k l).isSome then l else l ++ [(k, v)]

/-- Membership `k in d`. -/
def dictContains {α β : Type} [DecidableEq α] (k : α) (l : List (α × β)) : Bool :=
  (dictLookup k l).isSome

/-! ## TCP model: data -/

/-- One record of `TCPServer.load_questions`:
`{'id': int, 'text': str, 'options': [4 strings], 'correct': int}`. -/
structure Question where
  id : Int
  text : String
  options : List String
  correct : Int
deriving DecidableEq

/-- Sockets are opaque handles; their identity is all the server uses. -/
abbrev Sock := Nat

/-- A UDP endpoint (`(ip, port)` pair); only its identity matters. -/
abbrev Addr := Nat

/-- The per-client record `self.clients[client_socket]`:
`{'username': str, 'address': tuple, 'score': int}`. -/
structure ClientInfo where
  username : String
  address : Addr
  score : Nat
deriving DecidableEq

/-- The mutable state of `TCPServer` that the handlers touch:
`clients`, `current_question`, `game_active`, `answered`. -/
structure TCPState where
  clients : List (Sock × ClientInfo)
  currentQuestion : Option Question
  gameActive : Bool
  answered : List Sock
deriving DecidableEq

/-- Server-to-client messages of the TCP variant (the JSON objects built in
`server_tcp.py`, one constructor per `'type'` tag). -/
inductive Msg where
  | error (message : String)
  | welcome (message : String)
  | question (id : Int) (text : String) (options : List String)
      (timeLimit : Nat) (questionNumber : Nat) (totalQuestions : Nat)
  | result (message : String) (correctAnswer : Int) (firstCorrect : String)
  | wrongAnswer (message : String)
  | timeout (message : String) (correctAnswer : Int)
  | questionEnd (message : String) (correctAnswer : Int)
  | leaderboard (scores : List (String × Nat))
  | gameOver (message : String) (finalScores : List (String × Nat))
deriving DecidableEq

/-- A transport-level action on one socket. -/
inductive Out where
  | send (sock : Sock) (m : Msg)
  | close (sock : Sock)
deriving DecidableEq

/-- Observable events of a TCP-server run: transport actions, plus the
state-machine actions the spec talks about (`self.current_question = q`,
`self.answered.clear()`, `self.answered.add(sock)` with the correctness of
the accepted answer). -/
inductive Ev where
  | out (o : Out)
  | accepted (sock : Sock) (correct : Bool)
  | setCurrent (q : Question)
  | clearAnswered
deriving DecidableEq

/-! ## TCP model: operations -/

/-- The dict comprehension `\x7bclient['username']: client['score'] for client in self.clients.values()\x7d`
(`TCPServer.get_leaderboard`): a dict comprehension over the values in
insertion order. -/
def getLeaderboard (s : TCPState) : List (String × Nat) :=
  s.clients.foldl (fun acc p => dictInsert p.2.username p.2.score acc) []

/-- Model of `TCPServer.broadcast`: sends the message to every registered socket (in
dict order), collects the sockets whose `send` raised, and deletes those
clients only after the sweep over all sockets has finished.  No failure is
re-raised. -/
def broadcastT (m : Msg) (fails : Sock → Bool) (s : TCPState) : TCPState × List Ev :=
  let sends := s.clients.map (fun p => Ev.out (Out.send p.1 m))
  let disconnected := (s.clients.map Prod.fst).filter fails
  let clients' := disconnected.foldl (fun cs k => dictErase k cs) s.clients
  ({ s with clients := clients' }, sends)

/-- Model of `TCPServer.send_leaderboard`: broadcast the current leaderboard. -/
def sendLeaderboardT (fails : Sock → Bool) (s : TCPState) : TCPState × List Ev :=
  broadcastT (Msg.leaderboard (getLeaderboard s)) fails s

/-- Python's `str.strip()`: drop leading and trailing whitespace.  Written
over the character list so that it evaluates inside the kernel. -/
def pyStrip (str : String) : String :=
  ⟨((str.data.dropWhile Char.isWhitespace).reverse.dropWhile Char.isWhitespace).reverse⟩

/-- Model of `TCPServer.handle_join`: trim the username; an empty or already-taken
name gets an `error` message and the connection is closed, with no state
change; otherwise the client is inserted with score 0, welcomed, and a
leaderboard broadcast follows. -/
def handle_join (usernameRaw : String) (sock : Sock) (addr : Addr)
    (fails : Sock → Bool) (s : TCPState) : TCPState × List Ev :=
  let username := pyStrip usernameRaw
  let existing := s.clients.map (fun p => p.2.username)
  if username = "" then
    (s, [Ev.out (Out.send sock (Msg.error "Username cannot be empty")),
         Ev.out (Out.close sock)])
  else if username ∈ existing then
    (s, [Ev.out (Out.send sock (Msg.error "Username already taken")),
         Ev.out (Out.close sock)])
  else
    let s1 := { s with clients := dictInsert sock ⟨username, addr, 0⟩ s.clients }
    let res := sendLeaderboardT fails s1
    (res.1,
     Ev.out (Out.send sock (Msg.welcome
       ("Welcome " ++ username ++ "! Waiting for game to start..."))) :: res.2)

/-- The increment `self.clients[client_socket]['score'] += 10`. -/
def addScore (sock : Sock) (l : List (Sock × ClientInfo)) : List (Sock × ClientInfo) :=
  l.map (fun p => if p.1 = sock then (p.1, { p.2 with score := p.2.score + 10 }) else p)

/-- Model of `TCPServer.handle_answer`: ignore unknown sockets and repeat answerers;
drop non-integer or out-of-1..4 choices; drop answers whose `question_id`
is not the open question's id; otherwise mark the socket answered and, on a
correct choice, award 10 points and broadcast a `result` plus a
leaderboard, else unicast a `wrong_answer`. -/
def handle_answer (sock : Sock) (answer : Option Int) (question_id : Option Int)
    (fails : Sock → Bool) (s : TCPState) : TCPState × List Ev :=
  match dictLookup sock s.clients with
  | none => (s, [])
  | some info =>
    if sock ∈ s.answered then (s, [])
    else
      match answer with
      | none => (s, [])
      | some a =>
        if a < 1 ∨ a > 4 then (s, [])
        else
          match s.currentQuestion with
          | none => (s, [])
          | some q =>
            if question_id ≠ some q.id then (s, [])
            else
              let s1 := { s with answered := s.answered ++ [sock] }
              if a = q.correct then
                let s2 := { s1 with clients := addScore sock s1.clients }
                let res3 := broadcastT
                  (Msg.result ("🎉 " ++ info.username ++ " answered correctly! +10 points")
                    q.correct info.username) fails s2
                let res4 := sendLeaderboardT fails res3.1
                (res4.1, Ev.accepted sock true :: (res3.2 ++ res4.2))
              else
                (s1, [Ev.accepted sock false,
                      Ev.out (Out.send sock (Msg.wrongAnswer
                        "❌ Wrong answer! Keep trying in the next question."))])

/-- One inbound `answer` message observed during a question window, with its
JSON integer fields (`none` models a missing or non-integer field). -/
structure AnsEvent where
  sock : Sock
  answer : Option Int
  question_id : Option Int
deriving DecidableEq

/-- The connection handlers process the answers that arrive during the
15-second window one at a time (each `process_message` call), in arrival
order. -/
def runAnswers (fails : Sock → Bool) : List AnsEvent → TCPState → TCPState × List Ev
  | [], s => (s, [])
  | e :: rest, s =>
    let r1 := handle_answer e.sock e.answer e.question_id fails s
    let r2 := runAnswers fails rest r1.1
    (r2.1, r1.2 ++ r2.2)

/-- The end-of-window branch of `TCPServer.start_game` (after the
15-second sleep): when nobody answered, broadcast a `timeout` carrying the
correct answer; otherwise broadcast a `question_end` carrying it. -/
def revealPhase (idx : Nat) (q : Question) (fails : Sock → Bool) (s : TCPState) :
    TCPState × List Ev :=
  if s.answered = [] then
    broadcastT (Msg.timeout "⏰ Time\x27s up! No correct answers." q.correct) fails s
  else
    broadcastT (Msg.questionEnd ("Question " ++ toString idx ++ " completed!") q.correct)
      fails s

/-- One iteration of the `for idx, question in enumerate(self.questions, 1)`
loop of `TCPServer.start_game`: make `q` current, clear `answered`,
broadcast the question payload, let the answers of the window be handled,
then run the reveal branch.  `evs` are the answer messages that arrive
during this question's window. -/
def runQuestion (fails : Sock → Bool) (idx total : Nat) (q : Question)
    (evs : List AnsEvent) (s : TCPState) : TCPState × List Ev :=
  let s1 := { s with currentQuestion := some q, answered := [] }
  let r2 := broadcastT
    (Msg.question q.id q.text q.options 15 idx total) fails s1
  let r3 := runAnswers fails evs r2.1
  let r4 := revealPhase idx q fails r3.1
  (r4.1, Ev.setCurrent q :: Ev.clearAnswered :: (r2.2 ++ r3.2 ++ r4.2))

/-- The question loop of `TCPServer.start_game`, pairing each question with
the answer messages arriving in its window; `idx` is the 1-based ordinal. -/
def runRound (fails : Sock → Bool) (total : Nat) :
    Nat → List (Question × List AnsEvent) → TCPState → TCPState × List Ev
  | _, [], s => (s, [])
  | idx, (q, evs) :: rest, s =>
    let r1 := runQuestion fails idx total q evs s
    let r2 := runRound fails total (idx + 1) rest r1.1
    (r2.1, r1.2 ++ r2.2)

/-- Model of `TCPServer.end_game`: clear the game flags, snapshot the final scores
and broadcast them as a `game_over` message. -/
def endGame (fails : Sock → Bool) (s : TCPState) : TCPState × List Ev :=
  let s1 := { s with gameActive := false, currentQuestion := none }
  broadcastT (Msg.gameOver "🏁 Quiz completed!" (getLeaderboard s1)) fails s1

/-- Model of `TCPServer.start_game`: refuse to start without questions or without
players; otherwise run the question loop and then `end_game`. -/
def startGame (fails : Sock → Bool) (pairs : List (Question × List AnsEvent))
    (s : TCPState) : TCPState × List Ev :=
  if pairs = [] then (s, [])
  else if s.clients = [] then (s, [])
  else
    let s0 := { s with gameActive := true }
    let r1 := runRound fails pairs.length 1 pairs s0
    let r2 := endGame fails r1.1
    (r2.1, r1.2 ++ r2.2)

/-! ## UDP model (`src/udp_quiz/server_udp.py`) -/

/-- One record of the UDP question bank `questions.json`:
`{"id": int, "text": str, "choices": [...], "answer": int}` (`answer` is
the 1-based correct index). -/
structure UQuestion where
  id : Int
  text : String
  choices : List String
  answer : Int
deriving DecidableEq

/-- The mutable state of `UDPQuizServer`: `clients` (name to address),
`scores` (name to score) and `answers` (question id to the list of
`(name, answer)` pairs in arrival order).  The `name` in a stored answer is
`msg.get("name")`, which may be absent (`none`). -/
structure UDPState where
  clients : List (String × Addr)
  scores : List (String × Nat)
  answers : List (Int × List (Option String × Int))
deriving DecidableEq

/-- One row of the `results` list built by `UDPQuizServer.game_loop`. -/
structure UResult where
  name : String
  answer : Option Int
  correct : Bool
deriving DecidableEq

/-- Server-to-client messages of the UDP variant. -/
inductive UMsg where
  | question (qid : Int) (text : String) (choices : List String) (time : Nat)
  | reveal (qid : Int) (correct : Int) (results : List UResult)
      (scores : List (String × Nat))
  | final (scores : List (String × Nat))
deriving DecidableEq

/-- Inbound datagram messages dispatched by `UDPQuizServer.listen_loop`:
`register` (with `msg.get("name")`, possibly absent) and `answer` (with
`name`, an integer `question_id`, and `msg.get("answer")`, `none` when the
field is missing or not an integer). -/
inductive UIn where
  | reg (name : Option String) (addr : Addr)
  | ans (name : Option String) (qid : Int) (answer : Option Int)
deriving DecidableEq

/-- The statement `self.answers.setdefault(qid, []).append(entry)`: append to the list
stored under `qid`, creating an empty list first when the key is absent. -/
def answersAppend (qid : Int) (entry : Option String × Int)
    (l : List (Int × List (Option String × Int))) :
    List (Int × List (Option String × Int)) :=
  if (dictLookup qid l).isSome then
    l.map (fun p => if p.1 = qid then (p.1, p.2 ++ [entry]) else p)
  else l ++ [(qid, [entry])]

/-- The dispatch body of `UDPQuizServer.listen_loop` for one decoded
message.  A `register` with a truthy name stores/overwrites the sender's
address and `setdefault`s the score to 0; an `answer` whose `answer` field
is an integer is appended to the per-question answer list.  Neither branch
sends anything back (the returned send list is always empty). -/
def udpHandle (s : UDPState) : UIn → UDPState × List (Addr × UMsg)
  | UIn.reg name addr =>
    match name with
    | none => (s, [])
    | some n =>
      if n = "" then (s, [])
      else
        ({ s with clients := dictInsert n addr s.clients,
                  scores := dictSetdefault n 0 s.scores }, [])
  | UIn.ans name qid answer =>
    match answer with
    | none => (s, [])
    | some a => ({ s with answers := answersAppend qid (name, a) s.answers }, [])

/-- The inner loop of `UDPQuizServer.game_loop`'s evaluation:
`for n, a in reversed(answers_copy): if n == player: ...` — the player's
most recent stored answer for the question, if any. -/
def latestAnswer (player : String) (l : List (Option String × Int)) : Option Int :=
  (l.reverse.find? (fun p => p.1 == some player)).map Prod.snd

/-- The increment `self.scores[player] += 1`. -/
def bumpScore (player : String) (l : List (String × Nat)) : List (String × Nat) :=
  l.map (fun p => if p.1 = player then (p.1, p.2 + 1) else p)

/-- The body of the evaluation loop of `UDPQuizServer.game_loop` for one
player: select the player's most recent stored answer, compare it with the
1-based correct index, award 1 point when equal, and append a result row. -/
def evalStep (q : UQuestion) (answersCopy : List (Option String × Int))
    (acc : List (String × Nat) × List UResult) (player : String) :
    List (String × Nat) × List UResult :=
  let pa := latestAnswer player answersCopy
  let isC := pa == some q.answer
  ((if isC then bumpScore player acc.1 else acc.1), acc.2 ++ [⟨player, pa, isC⟩])

/-- The evaluation sweep of `UDPQuizServer.game_loop` at the end of a
question's window: `evalStep` over every player in `scores` key order. -/
def evalQuestion (q : UQuestion) (s : UDPState) : UDPState × List UResult :=
  let answersCopy := (dictLookup q.id s.answers).getD []
  let players := s.scores.map Prod.fst
  let res := players.foldl (evalStep q answersCopy) (s.scores, [])
  ({ s with scores := res.1 }, res.2)

/-- Observable events of a UDP-server run; `openQ` marks the loop head
where the question becomes the current one of the iteration, and
`resetAnswers` the `self.answers[qid] = []` statement. -/
inductive UEv where
  | openQ (qid : Int)
  | resetAnswers (qid : Int)
  | send (addr : Addr) (m : UMsg)
deriving DecidableEq

/-- Model of `UDPQuizServer.broadcast`: send the message to every registered client.
`send_udp_json` catches every exception and only prints it, so a failing
endpoint (`fails addr = true`) is still swept, nothing is recorded and no
client is removed. -/
def udpBroadcast (m : UMsg) (fails : Addr → Bool) (s : UDPState) :
    UDPState × List UEv :=
  (s, s.clients.map (fun p => UEv.send p.2 m))

/-- The datagrams that arrive during one question window, processed in
order by `listen_loop`. -/
def udpRunIns : List UIn → UDPState → UDPState
  | [], s => s
  | i :: rest, s => udpRunIns rest (udpHandle s i).1

/-- One iteration of the `for q in self.questions` loop of
`UDPQuizServer.game_loop`: reset this question's answer list, broadcast
the question, let the window's datagrams be handled, evaluate, and
broadcast the reveal. -/
def udpQuestionStep (fails : Addr → Bool) (q : UQuestion) (ins : List UIn)
    (s : UDPState) : UDPState × List UEv :=
  let s1 := { s with answers := dictInsert q.id [] s.answers }
  let r2 := udpBroadcast (UMsg.question q.id q.text q.choices 10) fails s1
  let s3 := udpRunIns ins r2.1
  let r4 := evalQuestion q s3
  let r5 := udpBroadcast (UMsg.reveal q.id q.answer r4.2 r4.1.scores) fails r4.1
  (r5.1, UEv.openQ q.id :: UEv.resetAnswers q.id :: (r2.2 ++ r5.2))

/-- The question loop of `UDPQuizServer.game_loop`. -/
def udpRound (fails : Addr → Bool) :
    List (UQuestion × List UIn) → UDPState → UDPState × List UEv
  | [], s => (s, [])
  | (q, ins) :: rest, s =>
    let r1 := udpQuestionStep fails q ins s
    let r2 := udpRound fails rest r1.1
    (r2.1, r1.2 ++ r2.2)

/-- Model of `UDPQuizServer.game_loop`: the question loop followed by the `final`
scores broadcast. -/
def udpGameLoop (fails : Addr → Bool) (qins : List (UQuestion × List UIn))
    (s : UDPState) : UDPState × List UEv :=
  let r1 := udpRound fails qins s
  let r2 := udpBroadcast (UMsg.final r1.1.scores) fails r1.1
  (r2.1, r1.2 ++ r2.2)

/-! ## Lock-event model of the TCP handlers

`TCPServer.lock` is a `threading.Lock` — a *non-reentrant* mutex.  The
following traces record, straight off the source, the sequence of lock
acquisitions (`with self.lock`), releases and socket `send` calls that a
single thread performs while executing each function. -/

/-- One lock-relevant action of a single thread. -/
inductive LockEv where
  | acq
  | rel
  | ioSend (sock : Sock)
deriving DecidableEq

/-- Model of `TCPServer.send_message`: a bare `client_socket.send`, no locking. -/
def sendMessageLk (sock : Sock) : List LockEv :=
  [LockEv.ioSend sock]

/-- Model of `TCPServer.get_leaderboard`: `with self.lock: return \x7b...\x7d`. -/
def getLeaderboardLk : List LockEv :=
  [LockEv.acq, LockEv.rel]

/-- Model of `TCPServer.broadcast`: `with self.lock:` then one `send` per client
socket, then the removal sweep, then release. -/
def broadcastLk (socks : List Sock) : List LockEv :=
  LockEv.acq :: (socks.map LockEv.ioSend ++ [LockEv.rel])

/-- Composition `TCPServer.send_leaderboard` = `get_leaderboard` then `broadcast`. -/
def sendLeaderboardLk (socks : List Sock) : List LockEv :=
  getLeaderboardLk ++ broadcastLk socks

/-- Trace of `TCPServer.handle_join`, success path: everything from the username
check to `send_leaderboard()` runs inside `with self.lock:`. -/
def handleJoinSuccessLk (sock : Sock) (socks : List Sock) : List LockEv :=
  LockEv.acq :: (sendMessageLk sock ++ sendLeaderboardLk socks ++ [LockEv.rel])

/-- Trace of `TCPServer.handle_answer`, correct-answer path: the whole body runs
inside `with self.lock:` and calls `broadcast` then `send_leaderboard`. -/
def handleAnswerCorrectLk (socks : List Sock) : List LockEv :=
  LockEv.acq :: (broadcastLk socks ++ sendLeaderboardLk socks ++ [LockEv.rel])

/-- Running a single thread's trace against a non-reentrant mutex it
holds to depth `d`: a second `acquire` while the depth is positive blocks
the thread forever (a `threading.Lock`, unlike an `RLock`, does not admit
re-acquisition by its holder). -/
def deadlocks : Nat → List LockEv → Bool
  | _, [] => false
  | d, LockEv.acq :: t => if 0 < d then true else deadlocks 1 t
  | d, LockEv.rel :: t => deadlocks (d - 1) t
  | d, LockEv.ioSend _ :: t => deadlocks d t

/-- Whether some socket `send` in the trace is performed while the lock is
held (depth positive at the send). -/
def sendsUnderLock : Nat → List LockEv → Bool
  | _, [] => false
  | d, LockEv.acq :: t => sendsUnderLock (d + 1) t
  | d, LockEv.rel :: t => sendsUnderLock (d - 1) t
  | d, LockEv.ioSend _ :: t => (0 < d : Bool) || sendsUnderLock d t

/-! ## Trace-counting helpers -/

/-- The number of accepted *correct* answers by socket `k` recorded in a
trace (one `Ev.accepted k true` per acceptance of a correct choice). -/
def countAC (tr : List Ev) (k : Sock) : Nat :=
  tr.countP (fun e => e == Ev.accepted k true)

/-- The number of `answered.clear()` events in a trace. -/
def countClears (tr : List Ev) : Nat :=
  tr.countP (fun e => e == Ev.clearAnswered)

/-- Events that neither make a question current nor clear `answered`. -/
def isPlain : Ev → Bool
  | Ev.setCurrent _ => false
  | Ev.clearAnswered => false
  | _ => true

/-- Predicate: `answered` is cleared only immediately after a question becomes
current: every `clearAnswered` in the trace is directly preceded by a
`setCurrent`. -/
def clearsOnlyAtOpen : List Ev → Bool
  | [] => true
  | Ev.setCurrent _ :: Ev.clearAnswered :: rest => clearsOnlyAtOpen rest
  | Ev.clearAnswered :: _ => false
  | _ :: rest => clearsOnlyAtOpen rest

/-- The number of `answers[qid] = []` resets in a UDP trace. -/
def countResets (tr : List UEv) : Nat :=
  tr.countP (fun e => match e with | UEv.resetAnswers _ => true | _ => false)

/-- UDP analogue of `clearsOnlyAtOpen`: every `resetAnswers qid` is
directly preceded by the loop head `openQ qid` of the same question. -/
def resetsOnlyAtOpen : List UEv → Bool
  | [] => true
  | UEv.openQ qid :: UEv.resetAnswers qid' :: rest =>
      qid == qid' && resetsOnlyAtOpen rest
  | UEv.resetAnswers _ :: _ => false
  | _ :: rest => resetsOnlyAtOpen rest

/-! ## Lemmas about the dict primitives -/

section DictLemmas

variable {α β : Type} [DecidableEq α]

theorem dictLookup_eq_some_of_mem {k : α} {v : β} {l : List (α × β)}
    (h : (l.map Prod.fst).Nodup) (hm : (k, v) ∈ l) : dictLookup k l = some v := by
  induction l with
  | nil => cases hm
  | cons p t ih =>
    rcases List.mem_cons.mp hm with hh | ht
    · subst hh
      simp [dictLookup]
    · have hk : p.1 ≠ k := by
        intro he
        have : p.1 ∈ t.map Prod.fst := by
          exact List.mem_map.mpr ⟨(k, v), ht, by simp [he]⟩
        exact (List.nodup_cons.mp h).1 this
      have ht' : (t.map Prod.fst).Nodup := (List.nodup_cons.mp h).2
      simp [dictLookup, hk, ih ht' ht]

theorem mem_of_dictLookup_eq_some {k : α} {v : β} {l : List (α × β)}
    (h : dictLookup k l = some v) : (k, v) ∈ l := by
  induction l with
  | nil => simp [dictLookup] at h
  | cons p t ih =>
    obtain ⟨a, b⟩ := p
    rw [dictLookup] at h
    by_cases he : a = k
    · rw [if_pos he] at h
      injection h with hbv
      subst he
      subst hbv
      exact List.mem_cons_self _ _
    · rw [if_neg he] at h
      exact List.mem_cons.mpr (Or.inr (ih h))

theorem dictLookup_isSome_iff_mem_keys {k : α} {l : List (α × β)} :
    (dictLookup k l).isSome ↔ k ∈ l.map Prod.fst := by
  induction l with
  | nil => simp [dictLookup]
  | cons p t ih =>
    rw [dictLookup]
    by_cases he : p.1 = k
    · simp [he]
    · simp only [he, if_false, ih, List.map_cons, List.mem_cons]
      exact ⟨fun h => Or.inr h, fun h => h.elim (fun h1 => absurd h1.symm he) id⟩

theorem filter_keys_eq_self {k : α} {l : List (α × β)}
    (h : k ∉ l.map Prod.fst) : l.filter (fun p => !(p.1 == k)) = l := by
  refine List.filter_eq_self.mpr fun p hp => ?_
  have : p.1 ≠ k := fun he => h (List.mem_map.mpr ⟨p, hp, he⟩)
  simpa using this

theorem dictErase_eq_filter {k : α} {l : List (α × β)}
    (h : (l.map Prod.fst).Nodup) :
    dictErase k l = l.filter (fun p => !(p.1 == k)) := by
  induction l with
  | nil => rfl
  | cons p t ih =>
    obtain ⟨a, b⟩ := p
    rw [List.map_cons, List.nodup_cons] at h
    obtain ⟨hp, ht⟩ := h
    rw [dictErase]
    by_cases he : a = k
    · subst he
      simpa using (filter_keys_eq_self hp).symm
    · simp [he, ih ht]

theorem keys_nodup_filter {l : List (α × β)} (f : α × β → Bool)
    (h : (l.map Prod.fst).Nodup) : ((l.filter f).map Prod.fst).Nodup :=
  ((l.filter_sublist).map Prod.fst).nodup h

theorem foldl_dictErase_eq_filter {l : List (α × β)} (ks : List α)
    (h : (l.map Prod.fst).Nodup) :
    ks.foldl (fun cs k => dictErase k cs) l = l.filter (fun p => !(ks.contains p.1)) := by
  induction ks generalizing l with
  | nil => simp
  | cons k ks ih =>
    rw [List.foldl_cons, @ih (dictErase k l)
      (by rw [dictErase_eq_filter h]; exact keys_nodup_filter _ h)]
    rw [dictErase_eq_filter h, List.filter_filter]
    refine List.filter_congr fun p _ => ?_
    by_cases h1 : p.1 = k <;> by_cases h2 : ks.contains p.1 <;>
      simp [h1, h2, List.contains_cons]

theorem dictLookup_filter_eq_some {k : α} {v : β} {l : List (α × β)}
    (f : α × β → Bool) (h : (l.map Prod.fst).Nodup)
    (hl : dictLookup k (l.filter f) = some v) : dictLookup k l = some v :=
  dictLookup_eq_some_of_mem h (l.filter_sublist.mem (mem_of_dictLookup_eq_some hl))

theorem dictLookup_dictInsert_self {k : α} {v : β} {l : List (α × β)} :
    dictLookup k (dictInsert k v l) = some v := by
  induction l with
  | nil => simp [dictInsert, dictLookup]
  | cons p t ih =>
    rw [dictInsert]
    by_cases he : p.1 = k <;> simp [he, dictLookup, ih]

theorem dictLookup_dictInsert_ne {k k' : α} {v : β} {l : List (α × β)}
    (h : k' ≠ k) : dictLookup k (dictInsert k' v l) = dictLookup k l := by
  induction l with
  | nil => simp [dictInsert, dictLookup, h]
  | cons p t ih =>
    obtain ⟨a, b⟩ := p
    rw [dictInsert]
    by_cases he : a = k'
    · subst he
      have hk : a ≠ k := fun hak => h (hak ▸ rfl)
      simp [dictLookup, hk]
    · have hkk : ¬ k = k' := fun hh => h hh.symm
      by_cases he2 : a = k <;> simp [dictLookup, he, he2, hkk, ih]

theorem keys_dictInsert {k : α} {v : β} {l : List (α × β)} :
    (dictInsert k v l).map Prod.fst =
      if k ∈ l.map Prod.fst then l.map Prod.fst else l.map Prod.fst ++ [k] := by
  induction l with
  | nil => simp [dictInsert]
  | cons p t ih =>
    obtain ⟨a, b⟩ := p
    rw [dictInsert]
    by_cases he : a = k
    · simp [he]
    · have hne : ¬ k = a := fun h => he h.symm
      simp only [he, if_false, List.map_cons, ih, List.mem_cons, hne, false_or]
      by_cases hm : k ∈ t.map Prod.fst <;> simp [hm]

theorem keys_nodup_dictInsert {k : α} {v : β} {l : List (α × β)}
    (h : (l.map Prod.fst).Nodup) : ((dictInsert k v l).map Prod.fst).Nodup := by
  rw [keys_dictInsert]
  by_cases hm : k ∈ l.map Prod.fst
  · simpa [hm] using h
  · rw [if_neg hm]
    refine List.Nodup.append h (List.nodup_singleton k) ?_
    intro a ha hb
    rw [List.mem_singleton] at hb
    subst hb
    exact hm ha

theorem dictSetdefault_of_isSome {k : α} {v : β} {l : List (α × β)}
    (h : (dictLookup k l).isSome) : dictSetdefault k v l = l := by
  simp [dictSetdefault, h]

end DictLemmas

/-! ## Lemmas about `broadcastT` -/

/-- The client dict of a real server maps distinct sockets; all handler
lemmas that depend on key uniqueness take this invariant. -/
def keysNodup (s : TCPState) : Prop := (s.clients.map Prod.fst).Nodup

theorem broadcastT_trace (m : Msg) (fails : Sock → Bool) (s : TCPState) :
    (broadcastT m fails s).2 = s.clients.map (fun p => Ev.out (Out.send p.1 m)) := rfl

theorem broadcastT_answered (m : Msg) (fails : Sock → Bool) (s : TCPState) :
    (broadcastT m fails s).1.answered = s.answered := rfl

theorem broadcastT_currentQuestion (m : Msg) (fails : Sock → Bool) (s : TCPState) :
    (broadcastT m fails s).1.currentQuestion = s.currentQuestion := rfl

theorem contains_filter_keys {l : List (Sock × ClientInfo)} {fails : Sock → Bool}
    {p : Sock × ClientInfo} (hp : p ∈ l) :
    ((l.map Prod.fst).filter fails).contains p.1 = fails p.1 := by
  have hkeys : p.1 ∈ l.map Prod.fst := List.mem_map.mpr ⟨p, hp, rfl⟩
  by_cases hf : fails p.1
  · simp [List.elem_iff, List.mem_filter, hkeys, hf]
  · simp [List.elem_iff, List.mem_filter, hf]

theorem broadcastT_clients {m : Msg} {fails : Sock → Bool} {s : TCPState}
    (h : keysNodup s) :
    (broadcastT m fails s).1.clients = s.clients.filter (fun p => !(fails p.1)) := by
  show ((s.clients.map Prod.fst).filter fails).foldl (fun cs k => dictErase k cs)
      s.clients = _
  rw [foldl_dictErase_eq_filter _ h]
  exact List.filter_congr fun p hp => by rw [contains_filter_keys hp]

theorem broadcastT_noFail (m : Msg) (s : TCPState) :
    (broadcastT m (fun _ => false) s).1 = s := by
  show { s with clients := _ } = s
  simp

theorem keysNodup_broadcastT {m : Msg} {fails : Sock → Bool} {s : TCPState}
    (h : keysNodup s) : keysNodup (broadcastT m fails s).1 := by
  rw [keysNodup, broadcastT_clients h]
  exact keys_nodup_filter _ h

/-! ## Score accounting for the TCP round (claim C1) -/

theorem keys_addScore (sock : Sock) (l : List (Sock × ClientInfo)) :
    (addScore sock l).map Prod.fst = l.map Prod.fst := by
  induction l with
  | nil => rfl
  | cons p t ih =>
    by_cases he : p.1 = sock <;> simp [addScore, he] at ih ⊢ <;> exact ih

theorem dictLookup_addScore (k sock : Sock) (l : List (Sock × ClientInfo)) :
    dictLookup k (addScore sock l) =
      (dictLookup k l).map
        (fun c => if k = sock then { c with score := c.score + 10 } else c) := by
  induction l with
  | nil => rfl
  | cons p t ih =>
    obtain ⟨a, b⟩ := p
    show dictLookup k
        ((if a = sock then (a, { b with score := b.score + 10 }) else (a, b)) ::
          addScore sock t) = Option.map _ (dictLookup k ((a, b) :: t))
    by_cases ha : a = sock
    · rw [if_pos ha, dictLookup, dictLookup]
      by_cases hk : a = k
      · have hks : k = sock := hk ▸ ha
        rw [if_pos hk, if_pos hk, Option.map_some', if_pos hks]
      · rw [if_neg hk, if_neg hk, ih]
    · rw [if_neg ha, dictLookup, dictLookup]
      by_cases hk : a = k
      · have hks : ¬ k = sock := fun h => ha (hk.symm ▸ h)
        rw [if_pos hk, if_pos hk, Option.map_some', if_neg hks]
      · rw [if_neg hk, if_neg hk, ih]

theorem countAC_nil (k : Sock) : countAC [] k = 0 := rfl

theorem countAC_append (t1 t2 : List Ev) (k : Sock) :
    countAC (t1 ++ t2) k = countAC t1 k + countAC t2 k :=
  List.countP_append _ _ _

theorem countAC_cons (e : Ev) (t : List Ev) (k : Sock) :
    countAC (e :: t) k = countAC t k + (if e = Ev.accepted k true then 1 else 0) := by
  rw [countAC, countAC, List.countP_cons]
  by_cases he : e = Ev.accepted k true <;> simp [he]

theorem countAC_map_out (f : Sock × ClientInfo → Out) (l : List (Sock × ClientInfo))
    (k : Sock) : countAC (l.map (fun p => Ev.out (f p))) k = 0 := by
  rw [countAC, List.countP_eq_zero]
  intro e he
  obtain ⟨p, _, hp⟩ := List.mem_map.mp he
  subst hp
  simp

/-- Relation `ScoreDelta s s' tr`: every client still registered in `s'` was
registered in `s` with the same username and address, and its score grew by
exactly 10 per accepted correct answer recorded in the trace `tr`. -/
def ScoreDelta (s s' : TCPState) (tr : List Ev) : Prop :=
  ∀ k info', dictLookup k s'.clients = some info' →
    ∃ info, dictLookup k s.clients = some info ∧
      info'.username = info.username ∧
      info'.score = info.score + 10 * countAC tr k

theorem ScoreDelta.refl (s : TCPState) : ScoreDelta s s [] :=
  fun _ info' h => ⟨info', h, rfl, by simp [countAC_nil]⟩

theorem ScoreDelta.trans {s1 s2 s3 : TCPState} {t1 t2 : List Ev}
    (h1 : ScoreDelta s1 s2 t1) (h2 : ScoreDelta s2 s3 t2) :
    ScoreDelta s1 s3 (t1 ++ t2) := by
  intro k info3 h3
  obtain ⟨info2, hl2, hu2, hs2⟩ := h2 k info3 h3
  obtain ⟨info1, hl1, hu1, hs1⟩ := h1 k info2 hl2
  exact ⟨info1, hl1, hu2.trans hu1, by rw [hs2, hs1, countAC_append]; ring⟩

theorem ScoreDelta.of_no_accept {s s' : TCPState} {tr : List Ev}
    (hc : s'.clients = s.clients) (h0 : ∀ k, countAC tr k = 0) :
    ScoreDelta s s' tr := by
  intro k info' h'
  exact ⟨info', by rw [← hc]; exact h', rfl, by simp [h0 k]⟩

theorem ScoreDelta.broadcastT {m : Msg} {fails : Sock → Bool} {s : TCPState}
    (h : keysNodup s) :
    ScoreDelta s (broadcastT m fails s).1 (broadcastT m fails s).2 := by
  intro k info' h'
  rw [broadcastT_clients h] at h'
  refine ⟨info', dictLookup_filter_eq_some _ h h', rfl, ?_⟩
  rw [broadcastT_trace, countAC_map_out]
  ring

theorem plain_broadcastT (m : Msg) (fails : Sock → Bool) (s : TCPState) :
    ∀ e ∈ (broadcastT m fails s).2, isPlain e = true := by
  intro e he
  rw [broadcastT_trace] at he
  obtain ⟨p, _, hp⟩ := List.mem_map.mp he
  subst hp
  rfl

theorem keysNodup_addScore {sock : Sock} {s : TCPState} (h : keysNodup s) :
    keysNodup { s with clients := addScore sock s.clients, answered := s.answered ++ [sock] } := by
  rw [keysNodup]
  show ((addScore sock s.clients).map Prod.fst).Nodup
  rw [keys_addScore]
  exact h

/-- Everything `handle_answer` guarantees at one call: the score-delta
accounting, preservation of socket-key uniqueness, and that its trace
neither makes a question current nor clears `answered`. -/
theorem handle_answer_props (sock : Sock) (a qid : Option Int)
    (fails : Sock → Bool) (s : TCPState) (h : keysNodup s) :
    ScoreDelta s (handle_answer sock a qid fails s).1 (handle_answer sock a qid fails s).2 ∧
      keysNodup (handle_answer sock a qid fails s).1 ∧
      ∀ e ∈ (handle_answer sock a qid fails s).2, isPlain e = true := by
  rw [handle_answer]
  cases hcl : dictLookup sock s.clients with
  | none => exact ⟨ScoreDelta.refl s, h, by simp⟩
  | some info =>
    dsimp only
    by_cases hans : sock ∈ s.answered
    · rw [if_pos hans]
      exact ⟨ScoreDelta.refl s, h, by simp⟩
    · rw [if_neg hans]
      cases a with
      | none => exact ⟨ScoreDelta.refl s, h, by simp⟩
      | some av =>
        dsimp only
        by_cases hb : av < 1 ∨ av > 4
        · rw [if_pos hb]
          exact ⟨ScoreDelta.refl s, h, by simp⟩
        · rw [if_neg hb]
          cases hq : s.currentQuestion with
          | none => exact ⟨ScoreDelta.refl s, h, by simp⟩
          | some q =>
            dsimp only
            by_cases hid : qid ≠ some q.id
            · rw [if_pos hid]
              exact ⟨ScoreDelta.refl s, h, by simp⟩
            · rw [if_neg hid]
              by_cases hc : av = q.correct
              · rw [if_pos hc]
                set s2 : TCPState :=
                  { s with clients := addScore sock s.clients,
                           answered := s.answered ++ [sock] } with hs2
                have hk2 : keysNodup s2 := keysNodup_addScore h
                have hd1 : ScoreDelta s s2 [Ev.accepted sock true] := by
                  intro k info' h'
                  rw [show s2.clients = addScore sock s.clients from rfl,
                    dictLookup_addScore] at h'
                  cases hl : dictLookup k s.clients with
                  | none => rw [hl] at h'; cases h'
                  | some info0 =>
                    rw [hl, Option.map_some'] at h'
                    injection h' with h''
                    subst h''
                    by_cases hks : k = sock
                    · subst hks
                      exact ⟨info0, rfl, by simp, by simp [countAC, List.countP_cons]⟩
                    · exact ⟨info0, rfl, by simp [hks],
                        by simp [countAC, List.countP_cons, hks, Ne.symm hks]⟩
                have hd2 := @ScoreDelta.broadcastT
                  (Msg.result ("🎉 " ++ info.username ++ " answered correctly! +10 points")
                    q.correct info.username) fails s2 hk2
                have hk3 := @keysNodup_broadcastT
                  (Msg.result ("🎉 " ++ info.username ++ " answered correctly! +10 points")
                    q.correct info.username) fails s2 hk2
                have hd3 := @ScoreDelta.broadcastT
                  (Msg.leaderboard (getLeaderboard (broadcastT
                    (Msg.result ("🎉 " ++ info.username ++ " answered correctly! +10 points")
                      q.correct info.username) fails s2).1)) fails
                  (broadcastT (Msg.result ("🎉 " ++ info.username ++ " answered correctly! +10 points")
                      q.correct info.username) fails s2).1 hk3
                have hk4 := @keysNodup_broadcastT
                  (Msg.leaderboard (getLeaderboard (broadcastT
                    (Msg.result ("🎉 " ++ info.username ++ " answered correctly! +10 points")
                      q.correct info.username) fails s2).1)) fails
                  (broadcastT (Msg.result ("🎉 " ++ info.username ++ " answered correctly! +10 points")
                      q.correct info.username) fails s2).1 hk3
                refine ⟨hd1.trans (hd2.trans hd3), hk4, ?_⟩
                intro e he
                rcases List.mem_cons.mp he with rfl | he2
                · rfl
                · rcases List.mem_append.mp he2 with h3 | h4
                  · exact plain_broadcastT _ _ _ e h3
                  · exact plain_broadcastT _ _ _ e h4
              · rw [if_neg hc]
                refine ⟨ScoreDelta.of_no_accept rfl ?_, h, by simp [isPlain]⟩
                intro k
                simp [countAC, List.countP_cons]

/-- Invariant propagation through a whole answer window. -/
theorem runAnswers_props (fails : Sock → Bool) (evs : List AnsEvent) (s : TCPState)
    (h : keysNodup s) :
    ScoreDelta s (runAnswers fails evs s).1 (runAnswers fails evs s).2 ∧
      keysNodup (runAnswers fails evs s).1 ∧
      ∀ e ∈ (runAnswers fails evs s).2, isPlain e = true := by
  induction evs generalizing s with
  | nil => exact ⟨ScoreDelta.refl s, h, by simp [runAnswers]⟩
  | cons ev rest ih =>
    obtain ⟨hd1, hk1, hp1⟩ := handle_answer_props ev.sock ev.answer ev.question_id fails s h
    obtain ⟨hd2, hk2, hp2⟩ :=
      ih (handle_answer ev.sock ev.answer ev.question_id fails s).1 hk1
    refine ⟨hd1.trans hd2, hk2, ?_⟩
    intro e he
    rw [show (runAnswers fails (ev :: rest) s).2 =
      (handle_answer ev.sock ev.answer ev.question_id fails s).2 ++
        (runAnswers fails rest (handle_answer ev.sock ev.answer ev.question_id fails s).1).2
      from rfl] at he
    rcases List.mem_append.mp he with h1 | h2
    · exact hp1 e h1
    · exact hp2 e h2

/-- Invariant propagation through the reveal branch. -/
theorem revealPhase_props (idx : Nat) (q : Question) (fails : Sock → Bool)
    (s : TCPState) (h : keysNodup s) :
    ScoreDelta s (revealPhase idx q fails s).1 (revealPhase idx q fails s).2 ∧
      keysNodup (revealPhase idx q fails s).1 ∧
      ∀ e ∈ (revealPhase idx q fails s).2, isPlain e = true := by
  rw [revealPhase]
  by_cases ha : s.answered = []
  · rw [if_pos ha]
    exact ⟨ScoreDelta.broadcastT h, keysNodup_broadcastT h, plain_broadcastT _ _ _⟩
  · rw [if_neg ha]
    exact ⟨ScoreDelta.broadcastT h, keysNodup_broadcastT h, plain_broadcastT _ _ _⟩

/-- Invariant propagation through one whole question of the round, together
with the shape of its trace: it opens with `setCurrent q` followed by the
sole `clearAnswered`, and the remainder is plain. -/
theorem runQuestion_props (fails : Sock → Bool) (idx total : Nat) (q : Question)
    (evs : List AnsEvent) (s : TCPState) (h : keysNodup s) :
    ScoreDelta s (runQuestion fails idx total q evs s).1
        (runQuestion fails idx total q evs s).2 ∧
      keysNodup (runQuestion fails idx total q evs s).1 ∧
      ∃ rest, (runQuestion fails idx total q evs s).2 =
          Ev.setCurrent q :: Ev.clearAnswered :: rest ∧
        ∀ e ∈ rest, isPlain e = true := by
  have hrq : runQuestion fails idx total q evs s =
      ((revealPhase idx q fails (runAnswers fails evs (broadcastT
          (Msg.question q.id q.text q.options 15 idx total) fails
          { s with currentQuestion := some q, answered := ([] : List Sock) }).1).1).1,
        Ev.setCurrent q :: Ev.clearAnswered ::
          ((broadcastT (Msg.question q.id q.text q.options 15 idx total) fails
              { s with currentQuestion := some q, answered := ([] : List Sock) }).2 ++
            (runAnswers fails evs (broadcastT (Msg.question q.id q.text q.options 15 idx total)
              fails { s with currentQuestion := some q, answered := ([] : List Sock) }).1).2 ++
            (revealPhase idx q fails (runAnswers fails evs (broadcastT
              (Msg.question q.id q.text q.options 15 idx total) fails
              { s with currentQuestion := some q, answered := ([] : List Sock) }).1).1).2)) := rfl
  have h1 : keysNodup { s with currentQuestion := some q, answered := ([] : List Sock) } := h
  have hd2 := @ScoreDelta.broadcastT (Msg.question q.id q.text q.options 15 idx total)
    fails { s with currentQuestion := some q, answered := ([] : List Sock) } h1
  have hk2 := @keysNodup_broadcastT (Msg.question q.id q.text q.options 15 idx total)
    fails { s with currentQuestion := some q, answered := ([] : List Sock) } h1
  have hp2 := plain_broadcastT (Msg.question q.id q.text q.options 15 idx total) fails
    { s with currentQuestion := some q, answered := ([] : List Sock) }
  obtain ⟨hd3, hk3, hp3⟩ := runAnswers_props fails evs _ hk2
  obtain ⟨hd4, hk4, hp4⟩ := revealPhase_props idx q fails _ hk3
  have hd1 : ScoreDelta s { s with currentQuestion := some q, answered := ([] : List Sock) }
      [Ev.setCurrent q, Ev.clearAnswered] :=
    ScoreDelta.of_no_accept rfl
      (fun k => by simp [countAC, List.countP_cons])
  rw [hrq]
  dsimp only
  refine ⟨?_, hk4, ?_⟩
  · rw [List.append_assoc]
    exact hd1.trans (hd2.trans (hd3.trans hd4))
  · refine ⟨_, rfl, ?_⟩
    intro e he
    rcases List.mem_append.mp he with h12 | h4
    · rcases List.mem_append.mp h12 with h2 | h3
      · exact hp2 e h2
      · exact hp3 e h3
    · exact hp4 e h4

/-- Invariant propagation through the full question loop. -/
theorem runRound_props (fails : Sock → Bool) (total idx : Nat)
    (pairs : List (Question × List AnsEvent)) (s : TCPState) (h : keysNodup s) :
    ScoreDelta s (runRound fails total idx pairs s).1 (runRound fails total idx pairs s).2 ∧
      keysNodup (runRound fails total idx pairs s).1 := by
  induction pairs generalizing idx s with
  | nil => exact ⟨ScoreDelta.refl s, h⟩
  | cons qe rest ih =>
    obtain ⟨hd1, hk1, _⟩ := runQuestion_props fails idx total qe.1 qe.2 s h
    obtain ⟨hd2, hk2⟩ := ih (idx + 1) (runQuestion fails idx total qe.1 qe.2 s).1 hk1
    exact ⟨hd1.trans hd2, hk2⟩

/-! ## Trace structure of the question loops (claim C7) -/

theorem countClears_append (t1 t2 : List Ev) :
    countClears (t1 ++ t2) = countClears t1 + countClears t2 :=
  List.countP_append _ _ _

theorem countClears_plain {t : List Ev} (h : ∀ e ∈ t, isPlain e = true) :
    countClears t = 0 := by
  rw [countClears, List.countP_eq_zero]
  intro e he
  have := h e he
  cases e <;> simp_all [isPlain]

theorem clearsOnlyAtOpen_plain_append {mid rest : List Ev}
    (h : ∀ e ∈ mid, isPlain e = true) :
    clearsOnlyAtOpen (mid ++ rest) = clearsOnlyAtOpen rest := by
  induction mid with
  | nil => rfl
  | cons e t ih =>
    have he := h e (List.mem_cons_self _ _)
    have ht : ∀ x ∈ t, isPlain x = true := fun x hx => h x (List.mem_cons_of_mem _ hx)
    cases e with
    | out o =>
      rw [List.cons_append, clearsOnlyAtOpen]
      · exact ih ht
      · intro q r h1
        cases h1
      · intro h1
        cases h1
    | accepted k c =>
      rw [List.cons_append, clearsOnlyAtOpen]
      · exact ih ht
      · intro q r h1
        cases h1
      · intro h1
        cases h1
    | setCurrent q => simp [isPlain] at he
    | clearAnswered => simp [isPlain] at he

theorem runQuestion_trace_clears (fails : Sock → Bool) (idx total : Nat)
    (q : Question) (evs : List AnsEvent) (s : TCPState) (h : keysNodup s)
    (tail : List Ev) :
    countClears (runQuestion fails idx total q evs s).2 = 1 ∧
      clearsOnlyAtOpen ((runQuestion fails idx total q evs s).2 ++ tail) =
        clearsOnlyAtOpen tail := by
  obtain ⟨-, -, rest, htr, hplain⟩ := runQuestion_props fails idx total q evs s h
  rw [htr]
  constructor
  · rw [show Ev.setCurrent q :: Ev.clearAnswered :: rest =
      [Ev.setCurrent q, Ev.clearAnswered] ++ rest from rfl, countClears_append,
      countClears_plain hplain]
    rfl
  · rw [List.cons_append, List.cons_append, clearsOnlyAtOpen,
      clearsOnlyAtOpen_plain_append hplain]

theorem runRound_trace_clears (fails : Sock → Bool) (total idx : Nat)
    (pairs : List (Question × List AnsEvent)) (s : TCPState) (h : keysNodup s) :
    countClears (runRound fails total idx pairs s).2 = pairs.length ∧
      clearsOnlyAtOpen (runRound fails total idx pairs s).2 = true := by
  induction pairs generalizing idx s with
  | nil => exact ⟨rfl, rfl⟩
  | cons qe rest ih =>
    obtain ⟨-, hk1, -⟩ := runQuestion_props fails idx total qe.1 qe.2 s h
    obtain ⟨ihc, iho⟩ := ih (idx + 1) (runQuestion fails idx total qe.1 qe.2 s).1 hk1
    obtain ⟨hc1, ho1⟩ := runQuestion_trace_clears fails idx total qe.1 qe.2 s h
      (runRound fails total (idx + 1) rest (runQuestion fails idx total qe.1 qe.2 s).1).2
    have htr : (runRound fails total idx (qe :: rest) s).2 =
        (runQuestion fails idx total qe.1 qe.2 s).2 ++
          (runRound fails total (idx + 1) rest (runQuestion fails idx total qe.1 qe.2 s).1).2 := by
      show (runRound fails total idx ((qe.1, qe.2) :: rest) s).2 = _
      rfl
    rw [htr, countClears_append, hc1, ho1]
    exact ⟨by rw [ihc, List.length_cons]; ring, iho⟩

/-! ## Trace structure of the UDP question loop -/

/-- UDP events that are neither a loop head nor an answer-list reset. -/
def uPlain : UEv → Bool
  | UEv.send _ _ => true
  | _ => false

theorem countResets_append (t1 t2 : List UEv) :
    countResets (t1 ++ t2) = countResets t1 + countResets t2 :=
  List.countP_append _ _ _

theorem countResets_plain {t : List UEv} (h : ∀ e ∈ t, uPlain e = true) :
    countResets t = 0 := by
  rw [countResets, List.countP_eq_zero]
  intro e he
  have := h e he
  cases e <;> simp_all [uPlain]

theorem resetsOnlyAtOpen_plain_append {mid rest : List UEv}
    (h : ∀ e ∈ mid, uPlain e = true) :
    resetsOnlyAtOpen (mid ++ rest) = resetsOnlyAtOpen rest := by
  induction mid with
  | nil => rfl
  | cons e t ih =>
    have he := h e (List.mem_cons_self _ _)
    have ht : ∀ x ∈ t, uPlain x = true := fun x hx => h x (List.mem_cons_of_mem _ hx)
    cases e with
    | send a m =>
      rw [List.cons_append, resetsOnlyAtOpen]
      · exact ih ht
      all_goals simp
    | openQ qid => simp [uPlain] at he
    | resetAnswers qid => simp [uPlain] at he

theorem udpQuestionStep_trace (fails : Addr → Bool) (q : UQuestion)
    (ins : List UIn) (s : UDPState) :
    ∃ rest, (udpQuestionStep fails q ins s).2 =
        UEv.openQ q.id :: UEv.resetAnswers q.id :: rest ∧
      ∀ e ∈ rest, uPlain e = true := by
  refine ⟨_, rfl, ?_⟩
  intro e he
  rcases List.mem_append.mp he with h1 | h2
  · obtain ⟨p, -, hp⟩ := List.mem_map.mp h1
    subst hp
    rfl
  · obtain ⟨p, -, hp⟩ := List.mem_map.mp h2
    subst hp
    rfl

theorem udpRound_trace_resets (fails : Addr → Bool)
    (qins : List (UQuestion × List UIn)) (s : UDPState) :
    countResets (udpRound fails qins s).2 = qins.length ∧
      resetsOnlyAtOpen (udpRound fails qins s).2 = true := by
  induction qins generalizing s with
  | nil => exact ⟨rfl, rfl⟩
  | cons qi rest ih =>
    obtain ⟨ihc, iho⟩ := ih (udpQuestionStep fails qi.1 qi.2 s).1
    obtain ⟨mid, hmid, hplain⟩ := udpQuestionStep_trace fails qi.1 qi.2 s
    have htr : (udpRound fails (qi :: rest) s).2 =
        (udpQuestionStep fails qi.1 qi.2 s).2 ++
          (udpRound fails rest (udpQuestionStep fails qi.1 qi.2 s).1).2 := by
      show (udpRound fails ((qi.1, qi.2) :: rest) s).2 = _
      rfl
    rw [htr, countResets_append, hmid]
    constructor
    · rw [show UEv.openQ qi.1.id :: UEv.resetAnswers qi.1.id :: mid =
        [UEv.openQ qi.1.id, UEv.resetAnswers qi.1.id] ++ mid from rfl,
        countResets_append, countResets_plain hplain, ihc, List.length_cons,
        show countResets [UEv.openQ qi.1.id, UEv.resetAnswers qi.1.id] = 1 from rfl]
      omega
    · rw [List.cons_append, List.cons_append, resetsOnlyAtOpen,
        resetsOnlyAtOpen_plain_append hplain, iho]
      simp

/-! ## Lemmas about the UDP evaluation sweep -/

theorem dictLookup_bumpScore (k player : String) (l : List (String × Nat)) :
    dictLookup k (bumpScore player l) =
      (dictLookup k l).map (fun v => if k = player then v + 1 else v) := by
  induction l with
  | nil => rfl
  | cons p t ih =>
    obtain ⟨a, b⟩ := p
    show dictLookup k ((if a = player then (a, b + 1) else (a, b)) :: bumpScore player t) =
      Option.map _ (dictLookup k ((a, b) :: t))
    by_cases ha : a = player
    · rw [if_pos ha, dictLookup, dictLookup]
      by_cases hk : a = k
      · have hks : k = player := hk ▸ ha
        rw [if_pos hk, if_pos hk, Option.map_some', if_pos hks]
      · rw [if_neg hk, if_neg hk, ih]
    · rw [if_neg ha, dictLookup, dictLookup]
      by_cases hk : a = k
      · have hks : ¬ k = player := fun h => ha (hk.symm ▸ h)
        rw [if_pos hk, if_pos hk, Option.map_some', if_neg hks]
      · rw [if_neg hk, if_neg hk, ih]

theorem foldl_evalStep_scores (q : UQuestion) (copy : List (Option String × Int)) :
    ∀ (players : List String) (acc : List (String × Nat)) (res : List UResult)
      (k : String), players.Nodup →
      dictLookup k (players.foldl (evalStep q copy) (acc, res)).1 =
        (dictLookup k acc).map
          (fun v => if k ∈ players ∧ latestAnswer k copy == some q.answer
            then v + 1 else v) := by
  intro players
  induction players with
  | nil =>
    intro acc res k _
    cases h : dictLookup k acc <;> simp [h]
  | cons p rest ih =>
    intro acc res k hnd
    obtain ⟨hp, hrest⟩ := List.nodup_cons.mp hnd
    rw [List.foldl_cons]
    have hstep : evalStep q copy (acc, res) p =
        ((if latestAnswer p copy == some q.answer then bumpScore p acc else acc),
          res ++ [⟨p, latestAnswer p copy, latestAnswer p copy == some q.answer⟩]) := rfl
    rw [hstep, ih _ _ k hrest]
    by_cases hc : latestAnswer p copy == some q.answer
    · rw [if_pos hc, dictLookup_bumpScore, Option.map_map]
      cases hl : dictLookup k acc
      · rfl
      · rw [Option.map_some', Option.map_some']
        by_cases hkp : k = p
        · subst hkp
          have hkr : k ∉ rest := hp
          simp [hkr, hc]
        · by_cases hkr : k ∈ rest <;> simp [hkp, hkr]
    · rw [if_neg hc]
      cases hl : dictLookup k acc
      · rfl
      · rw [Option.map_some', Option.map_some']
        by_cases hkp : k = p
        · subst hkp
          have hkr : k ∉ rest := hp
          simp [hkr, hc]
        · by_cases hkr : k ∈ rest <;> simp [hkp, hkr]

/-- The per-player effect of the UDP evaluation sweep: when the score dict
has unique names, evaluating a question adds exactly 1 to a player's score
when the player's most recent stored answer for the question equals the
correct index, and leaves it unchanged otherwise. -/
theorem evalQuestion_scores {q : UQuestion} {s : UDPState}
    (h : (s.scores.map Prod.fst).Nodup) (name : String) :
    dictLookup name (evalQuestion q s).1.scores =
      (dictLookup name s.scores).map
        (fun v => if latestAnswer name ((dictLookup q.id s.answers).getD [])
            == some q.answer then v + 1 else v) := by
  show dictLookup name ((s.scores.map Prod.fst).foldl
    (evalStep q ((dictLookup q.id s.answers).getD [])) (s.scores, [])).1 = _
  rw [foldl_evalStep_scores q _ _ _ _ _ h]
  cases hl : dictLookup name s.scores with
  | none => rfl
  | some v =>
    have hmem : name ∈ s.scores.map Prod.fst :=
      dictLookup_isSome_iff_mem_keys.mp (by rw [hl]; rfl)
    rw [Option.map_some', Option.map_some']
    by_cases hc : latestAnswer name ((dictLookup q.id s.answers).getD [])
        == some q.answer <;> simp [hmem, hc]

/-! ## Username uniqueness through `handle_join` (claim C2) -/

/-- No two registered TCP players hold the same username. -/
def namesNodup (s : TCPState) : Prop :=
  (s.clients.map (fun p => p.2.username)).Nodup

theorem dictErase_sublist {α β : Type} [DecidableEq α] (k : α) (l : List (α × β)) :
    (dictErase k l).Sublist l := by
  induction l with
  | nil => exact List.Sublist.refl _
  | cons p t ih =>
    rw [dictErase]
    by_cases he : p.1 = k
    · rw [if_pos he]
      exact (List.Sublist.refl t).cons p
    · rw [if_neg he]
      exact ih.cons₂ p

theorem foldl_dictErase_sublist {α β : Type} [DecidableEq α] (ks : List α)
    (l : List (α × β)) : (ks.foldl (fun cs k => dictErase k cs) l).Sublist l := by
  induction ks generalizing l with
  | nil => exact List.Sublist.refl _
  | cons k ks ih => exact (ih (dictErase k l)).trans (dictErase_sublist k l)

theorem mem_usernames_dictInsert {sock : Sock} {info : ClientInfo}
    {l : List (Sock × ClientInfo)} {x : String}
    (h : x ∈ (dictInsert sock info l).map (fun p => p.2.username)) :
    x ∈ l.map (fun p => p.2.username) ∨ x = info.username := by
  induction l with
  | nil =>
    right
    rw [show dictInsert sock info [] = [(sock, info)] from rfl] at h
    simpa using h
  | cons p t ih =>
    rw [dictInsert] at h
    by_cases he : p.1 = sock
    · rw [if_pos he, List.map_cons] at h
      rcases List.mem_cons.mp h with h1 | h2
      · exact Or.inr h1
      · exact Or.inl (by rw [List.map_cons]; exact List.mem_cons.mpr (Or.inr h2))
    · rw [if_neg he, List.map_cons] at h
      rcases List.mem_cons.mp h with h1 | h2
      · exact Or.inl (by rw [List.map_cons]; exact List.mem_cons.mpr (Or.inl h1))
      · rcases ih h2 with h3 | h4
        · exact Or.inl (by rw [List.map_cons]; exact List.mem_cons.mpr (Or.inr h3))
        · exact Or.inr h4

theorem usernames_dictInsert_nodup {sock : Sock} {info : ClientInfo}
    {l : List (Sock × ClientInfo)}
    (hu : info.username ∉ l.map (fun p => p.2.username))
    (h : (l.map (fun p => p.2.username)).Nodup) :
    ((dictInsert sock info l).map (fun p => p.2.username)).Nodup := by
  induction l with
  | nil => simp [dictInsert]
  | cons p t ih =>
    rw [List.map_cons, List.nodup_cons] at h
    obtain ⟨hp, ht⟩ := h
    have hu' : info.username ∉ t.map (fun p => p.2.username) := by
      intro hx
      exact hu (by rw [List.map_cons]; exact List.mem_cons.mpr (Or.inr hx))
    have hpu : p.2.username ≠ info.username := by
      intro he
      exact hu (by rw [List.map_cons]; exact List.mem_cons.mpr (Or.inl he.symm))
    rw [dictInsert]
    by_cases he : p.1 = sock
    · rw [if_pos he, List.map_cons, List.nodup_cons]
      exact ⟨hu', ht⟩
    · rw [if_neg he, List.map_cons, List.nodup_cons]
      refine ⟨?_, ih hu' ht⟩
      intro hx
      rcases mem_usernames_dictInsert hx with h1 | h2
      · exact hp h1
      · exact hpu h2

/-! ## Early-return paths of `handle_answer` -/

/-- A socket already in `answered` is ignored: no state change, no reply. -/
theorem handle_answer_already {sock : Sock} {a qid : Option Int}
    {fails : Sock → Bool} {s : TCPState} (h : sock ∈ s.answered) :
    handle_answer sock a qid fails s = (s, []) := by
  rw [handle_answer]
  cases hcl : dictLookup sock s.clients with
  | none => rfl
  | some info =>
    try dsimp only
    rw [if_pos h]

/-- An out-of-range integer choice is dropped silently: no state change and
no reply of any kind (in particular no bounds-error message). -/
theorem handle_answer_bounds {sock : Sock} {a : Int} {qid : Option Int}
    {fails : Sock → Bool} {s : TCPState} (h : a < 1 ∨ a > 4) :
    handle_answer sock (some a) qid fails s = (s, []) := by
  rw [handle_answer]
  cases hcl : dictLookup sock s.clients with
  | none => rfl
  | some info =>
    try dsimp only
    by_cases hans : sock ∈ s.answered
    · rw [if_pos hans]
    · rw [if_neg hans]
      try dsimp only
      rw [if_pos h]

/-- An answer whose `question_id` is not the open question's id is dropped
silently: no state change, no reply. -/
theorem handle_answer_stale {sock : Sock} {a qid : Option Int}
    {fails : Sock → Bool} {s : TCPState} {q : Question}
    (hq : s.currentQuestion = some q) (h : qid ≠ some q.id) :
    handle_answer sock a qid fails s = (s, []) := by
  rw [handle_answer]
  cases hcl : dictLookup sock s.clients with
  | none => rfl
  | some info =>
    try dsimp only
    by_cases hans : sock ∈ s.answered
    · rw [if_pos hans]
    · rw [if_neg hans]
      cases a with
      | none => rfl
      | some av =>
        try dsimp only
        by_cases hb : av < 1 ∨ av > 4
        · rw [if_pos hb]
        · rw [if_neg hb, hq]
          try dsimp only
          rw [if_pos h]

/-- An accepted submission (registered socket, first answer, integer choice
in 1..4, current question id) marks the socket in `answered`, whether the
choice is correct or wrong. -/
theorem handle_answer_marks {sock : Sock} {av : Int} {qid : Option Int}
    {fails : Sock → Bool} {s : TCPState} {q : Question} {info : ClientInfo}
    (hcl : dictLookup sock s.clients = some info) (hans : sock ∉ s.answered)
    (hb : ¬(av < 1 ∨ av > 4)) (hq : s.currentQuestion = some q)
    (hid : qid = some q.id) :
    sock ∈ (handle_answer sock (some av) qid fails s).1.answered := by
  rw [handle_answer, hcl]
  try dsimp only
  rw [if_neg hans]
  try dsimp only
  rw [if_neg hb, hq]
  try dsimp only
  rw [if_neg (by simp [hid])]
  by_cases hc : av = q.correct
  · rw [if_pos hc]
    try dsimp only
    rw [sendLeaderboardT, broadcastT_answered, broadcastT_answered]
    simp
  · rw [if_neg hc]
    show sock ∈ s.answered ++ [sock]
    simp

/-! ## Further dict lemmas for the UDP claims -/

theorem dictLookup_append_singleton_ne {α β : Type} [DecidableEq α]
    {k k2 : α} (v : β) (l : List (α × β)) (h : k ≠ k2) :
    dictLookup k (l ++ [(k2, v)]) = dictLookup k l := by
  induction l with
  | nil =>
    show (if k2 = k then some v else dictLookup k []) = _
    rw [if_neg (fun h2 => h h2.symm)]
  | cons p t ih =>
    rw [List.cons_append, dictLookup, dictLookup]
    by_cases he : p.1 = k
    · rw [if_pos he, if_pos he]
    · rw [if_neg he, if_neg he, ih]

theorem dictLookup_map_update_ne {k qid : Int} {entry : Option String × Int}
    (l : List (Int × List (Option String × Int))) (h : k ≠ qid) :
    dictLookup k (l.map (fun p => if p.1 = qid then (p.1, p.2 ++ [entry]) else p)) =
      dictLookup k l := by
  induction l with
  | nil => rfl
  | cons p t ih =>
    rw [List.map_cons, dictLookup, dictLookup]
    by_cases he : p.1 = qid
    · have hk : ¬ p.1 = k := fun h2 => h (h2 ▸ he)
      rw [if_pos he]
      rw [show ((p.1, p.2 ++ [entry]) : Int × List (Option String × Int)).1 = p.1 from rfl,
        if_neg hk, if_neg hk, ih]
    · by_cases h2 : p.1 = k
      · rw [if_neg he, if_pos h2, if_pos h2]
      · rw [if_neg he, if_neg h2, if_neg h2, ih]

theorem dictLookup_answersAppend_ne {k qid : Int} {entry : Option String × Int}
    {l : List (Int × List (Option String × Int))} (h : k ≠ qid) :
    dictLookup k (answersAppend qid entry l) = dictLookup k l := by
  rw [answersAppend]
  by_cases hp : (dictLookup qid l).isSome
  · rw [if_pos hp]
    exact dictLookup_map_update_ne l h
  · rw [if_neg hp]
    exact dictLookup_append_singleton_ne _ _ h

/-- Appending a player's own answer makes it the most recent one. -/
theorem latestAnswer_append_self (player : String) (a : Int)
    (l : List (Option String × Int)) :
    latestAnswer player (l ++ [(some player, a)]) = some a := by
  rw [latestAnswer, List.reverse_append]
  simp [List.find?]

theorem dictInsert_fresh {α β : Type} [DecidableEq α] {k : α} {v : β}
    {l : List (α × β)} (h : k ∉ l.map Prod.fst) : dictInsert k v l = l ++ [(k, v)] := by
  induction l with
  | nil => rfl
  | cons p t ih =>
    rw [dictInsert]
    have hne : ¬ p.1 = k := by
      intro he
      exact h (by rw [List.map_cons]; exact List.mem_cons.mpr (Or.inl he.symm))
    rw [if_neg hne, List.cons_append,
      ih (fun hm => h (by rw [List.map_cons]; exact List.mem_cons.mpr (Or.inr hm)))]

/-- The dict comprehension of `get_leaderboard` is the plain
`username ↦ score` listing whenever usernames are unique. -/
theorem getLeaderboard_acc (l : List (Sock × ClientInfo)) :
    ∀ acc : List (String × Nat),
      ((l.map (fun p => p.2.username)).Nodup) →
      (∀ u ∈ l.map (fun p => p.2.username), u ∉ acc.map Prod.fst) →
      l.foldl (fun acc p => dictInsert p.2.username p.2.score acc) acc =
        acc ++ l.map (fun p => (p.2.username, p.2.score)) := by
  induction l with
  | nil => intro acc _ _; simp
  | cons p t ih =>
    intro acc hnd hfresh
    rw [List.map_cons, List.nodup_cons] at hnd
    obtain ⟨hp, ht⟩ := hnd
    rw [List.foldl_cons, dictInsert_fresh
      (hfresh p.2.username (by rw [List.map_cons]; exact List.mem_cons.mpr (Or.inl rfl)))]
    rw [ih _ ht ?_]
    · simp
    · intro u hu
      rw [List.map_append]
      intro hmem
      rcases List.mem_append.mp hmem with h1 | h2
      · exact hfresh u (by rw [List.map_cons]; exact List.mem_cons.mpr (Or.inr hu)) h1
      · have : u = p.2.username := by simpa using h2
        exact hp (this ▸ hu)

theorem getLeaderboard_eq {s : TCPState} (h : namesNodup s) :
    getLeaderboard s = s.clients.map (fun p => (p.2.username, p.2.score)) := by
  rw [getLeaderboard, getLeaderboard_acc s.clients [] h (by simp)]
  simp

/-! ## `handle_join` path lemmas -/

theorem handle_join_empty {raw : String} {sock : Sock} {addr : Addr}
    {fails : Sock → Bool} {s : TCPState} (h : pyStrip raw = "") :
    handle_join raw sock addr fails s =
      (s, [Ev.out (Out.send sock (Msg.error "Username cannot be empty")),
           Ev.out (Out.close sock)]) := by
  simp only [handle_join]
  rw [if_pos h]

theorem handle_join_dup {raw : String} {sock : Sock} {addr : Addr}
    {fails : Sock → Bool} {s : TCPState} (h : pyStrip raw ≠ "")
    (hd : pyStrip raw ∈ s.clients.map (fun p => p.2.username)) :
    handle_join raw sock addr fails s =
      (s, [Ev.out (Out.send sock (Msg.error "Username already taken")),
           Ev.out (Out.close sock)]) := by
  simp only [handle_join]
  rw [if_neg h, if_pos hd]

theorem handle_join_namesNodup {raw : String} {sock : Sock} {addr : Addr}
    {fails : Sock → Bool} {s : TCPState} (h : namesNodup s) :
    namesNodup (handle_join raw sock addr fails s).1 := by
  rw [handle_join]
  by_cases he : pyStrip raw = ""
  · rw [if_pos he]
    exact h
  · rw [if_neg he]
    by_cases hd : pyStrip raw ∈ s.clients.map (fun p => p.2.username)
    · rw [if_pos hd]
      exact h
    · rw [if_neg hd]
      show (((sendLeaderboardT fails
        { s with clients := dictInsert sock ⟨pyStrip raw, addr, 0⟩ s.clients }).1.clients).map
          (fun p => p.2.username)).Nodup
      have hins : ((dictInsert sock ⟨pyStrip raw, addr, 0⟩ s.clients).map
          (fun p => p.2.username)).Nodup :=
        usernames_dictInsert_nodup hd h
      have hsub : ((sendLeaderboardT fails
          { s with clients := dictInsert sock ⟨pyStrip raw, addr, 0⟩ s.clients }).1.clients).Sublist
          (dictInsert sock ⟨pyStrip raw, addr, 0⟩ s.clients) := by
        show (List.foldl (fun cs k => dictErase k cs) _ _).Sublist _
        exact foldl_dictErase_sublist _ _
      exact (hsub.map (fun p => p.2.username)).nodup hins

/-- UDP registration preserves uniqueness of registered names (the name is
the dict key). -/
theorem udpHandle_keysNodup {i : UIn} {s : UDPState}
    (h : (s.clients.map Prod.fst).Nodup) :
    (((udpHandle s i).1.clients).map Prod.fst).Nodup := by
  cases i with
  | reg name addr =>
    cases name with
    | none => exact h
    | some n =>
      rw [udpHandle]
      by_cases he : n = ""
      · rw [if_pos he]
        exact h
      · rw [if_neg he]
        exact keys_nodup_dictInsert h
  | ans name qid answer =>
    cases answer with
    | none => exact h
    | some a => exact h

/-! ## Claim theorems -/

/-- The sample question used as concrete input by several witnesses
(the first fallback question of `load_questions`). -/
def exQ : Question := ⟨1, "What is 2+2?", ["3", "4", "5", "6"], 2⟩

/-- The same question in the UDP variant's shape. -/
def exUQ : UQuestion := ⟨1, "What is 2+2?", ["3", "4", "5", "6"], 2⟩

/-- Claim C3: once a player's first submission for the open question has
been accepted, a second submission by the same socket changes no state and
gets no reply; acceptance itself (correct or wrong choice) marks the
socket in `answered`. -/
theorem C3_idempotent_second_answer :
    (∀ (sock : Sock) (a qid : Option Int) (fails : Sock → Bool) (s : TCPState),
      sock ∈ s.answered → handle_answer sock a qid fails s = (s, [])) ∧
    (∀ (sock : Sock) (av : Int) (qid : Option Int) (fails : Sock → Bool)
      (s : TCPState) (q : Question) (info : ClientInfo),
      dictLookup sock s.clients = some info → sock ∉ s.answered →
      ¬(av < 1 ∨ av > 4) → s.currentQuestion = some q → qid = some q.id →
      sock ∈ (handle_answer sock (some av) qid fails s).1.answered) :=
  ⟨fun _ _ _ _ _ h => handle_answer_already h,
   fun _ _ _ _ _ _ _ hcl hans hb hq hid => handle_answer_marks hcl hans hb hq hid⟩

/-- Witness for C3 at a concrete input: socket 5 is ignored once in
`answered`, and a fresh accepted answer marks socket 5. -/
theorem C3_witness :
    handle_answer 5 (some 2) (some 1) (fun _ => false)
      ⟨[(5, ⟨"alice", 1, 0⟩)], some exQ, true, [5]⟩ =
      (⟨[(5, ⟨"alice", 1, 0⟩)], some exQ, true, [5]⟩, []) ∧
    5 ∈ (handle_answer 5 (some 2) (some 1) (fun _ => false)
      ⟨[(5, ⟨"alice", 1, 0⟩)], some exQ, true, []⟩).1.answered :=
  ⟨C3_idempotent_second_answer.1 5 (some 2) (some 1) (fun _ => false)
      ⟨[(5, ⟨"alice", 1, 0⟩)], some exQ, true, [5]⟩ (by decide),
   C3_idempotent_second_answer.2 5 2 (some 1) (fun _ => false)
      ⟨[(5, ⟨"alice", 1, 0⟩)], some exQ, true, []⟩ exQ ⟨"alice", 1, 0⟩
      rfl (by decide) (by decide) rfl rfl⟩

/-- Claim C4: at the deadline, an empty `answered` set yields a `timeout`
broadcast carrying the correct answer to every registered socket and leaves
every remaining player's record (hence score) unchanged; a non-empty
`answered` set yields a `question_end` broadcast carrying the correct
answer. -/
theorem C4_timeout_reveal (idx : Nat) (q : Question) (fails : Sock → Bool)
    (s : TCPState) (hn : keysNodup s) :
    (s.answered = [] →
      (revealPhase idx q fails s).2 = s.clients.map (fun p => Ev.out (Out.send p.1
        (Msg.timeout "⏰ Time\x27s up! No correct answers." q.correct))) ∧
      ∀ k info, dictLookup k (revealPhase idx q fails s).1.clients = some info →
        dictLookup k s.clients = some info) ∧
    (s.answered ≠ [] →
      (revealPhase idx q fails s).2 = s.clients.map (fun p => Ev.out (Out.send p.1
        (Msg.questionEnd ("Question " ++ toString idx ++ " completed!") q.correct)))) := by
  constructor
  · intro ha
    rw [revealPhase, if_pos ha]
    refine ⟨broadcastT_trace _ _ _, ?_⟩
    intro k info h'
    rw [broadcastT_clients hn] at h'
    exact dictLookup_filter_eq_some _ hn h'
  · intro ha
    rw [revealPhase, if_neg ha]
    exact broadcastT_trace _ _ _

/-- Witness for C4 at a concrete input: with nobody answered, socket 5
receives the timeout message carrying correct answer 2, and alice's record
survives unchanged. -/
theorem C4_witness :
    (revealPhase 1 exQ (fun _ => false)
      ⟨[(5, ⟨"alice", 1, 0⟩)], some exQ, true, []⟩).2 =
      [Ev.out (Out.send 5 (Msg.timeout "⏰ Time\x27s up! No correct answers." 2))] ∧
    dictLookup 5 (revealPhase 1 exQ (fun _ => false)
      ⟨[(5, ⟨"alice", 1, 0⟩)], some exQ, true, []⟩).1.clients =
      some ⟨"alice", 1, 0⟩ := by
  have h := C4_timeout_reveal 1 exQ (fun _ => false)
    ⟨[(5, ⟨"alice", 1, 0⟩)], some exQ, true, []⟩
    (by show (List.map Prod.fst [((5 : Sock), (⟨"alice", 1, 0⟩ : ClientInfo))]).Nodup
        decide)
  obtain ⟨htr, -⟩ := h.1 rfl
  exact ⟨htr.trans rfl, rfl⟩

/-- Claim C5 (amended): a submission whose question id differs from the
open question's id changes no score, marks nobody as answered and sends no
reply in either variant; in the TCP variant it changes no state at all,
while in the UDP variant it is appended to the answer store under its own
question id, leaving every other question's stored answers (in particular
the open question's) untouched. -/
theorem C5_stale_answer :
    (∀ (sock : Sock) (a qid : Option Int) (fails : Sock → Bool) (s : TCPState)
      (q : Question), s.currentQuestion = some q → qid ≠ some q.id →
      handle_answer sock a qid fails s = (s, [])) ∧
    (∀ (s : UDPState) (name : Option String) (qid : Int) (a : Option Int)
      (qid2 : Int), qid2 ≠ qid →
      (udpHandle s (UIn.ans name qid a)).1.scores = s.scores ∧
      (udpHandle s (UIn.ans name qid a)).1.clients = s.clients ∧
      (udpHandle s (UIn.ans name qid a)).2 = [] ∧
      dictLookup qid2 (udpHandle s (UIn.ans name qid a)).1.answers =
        dictLookup qid2 s.answers) := by
  constructor
  · intro sock a qid fails s q hq hid
    exact handle_answer_stale hq hid
  · intro s name qid a qid2 hne
    cases a with
    | none => exact ⟨rfl, rfl, rfl, rfl⟩
    | some av => exact ⟨rfl, rfl, rfl, dictLookup_answersAppend_ne hne⟩

/-- Witness for C5 at a concrete input: a stale TCP answer for question 99
leaves the state untouched, and a stale UDP answer leaves question 1's
stored answers untouched. -/
theorem C5_witness :
    handle_answer 5 (some 2) (some 99) (fun _ => false)
      ⟨[(5, ⟨"alice", 1, 0⟩)], some exQ, true, []⟩ =
      (⟨[(5, ⟨"alice", 1, 0⟩)], some exQ, true, []⟩, []) ∧
    dictLookup 1 (udpHandle ⟨[("bob", 4)], [("bob", 0)], [(1, [])]⟩
      (UIn.ans (some "bob") 99 (some 2))).1.answers =
      dictLookup 1 ([(1, [])] : List (Int × List (Option String × Int))) :=
  ⟨C5_stale_answer.1 5 (some 2) (some 99) (fun _ => false)
      ⟨[(5, ⟨"alice", 1, 0⟩)], some exQ, true, []⟩ exQ rfl (by decide),
   ((C5_stale_answer.2 ⟨[("bob", 4)], [("bob", 0)], [(1, [])]⟩
      (some "bob") 99 (some 2) 1 (by decide)).2.2.2)⟩

/-- Counterexample to C5 as stated: in the UDP variant a stale submission
does affect state — the answer store gains an entry under the stale id. -/
theorem C5_counterexample :
    (udpHandle ⟨[("bob", 4)], [("bob", 0)], [(1, [])]⟩
        (UIn.ans (some "bob") 99 (some 2))).1.answers =
      [(1, []), (99, [(some "bob", 2)])] ∧
    (udpHandle ⟨[("bob", 4)], [("bob", 0)], [(1, [])]⟩
        (UIn.ans (some "bob") 99 (some 2))).1 ≠
      ⟨[("bob", 4)], [("bob", 0)], [(1, [])]⟩ := by
  refine ⟨rfl, fun hcontra => ?_⟩
  exact absurd (congrArg UDPState.answers hcontra) (by decide)

/-- Claim C6 (amended): in the TCP variant a choice outside 1..4 (the hard
bound, regardless of option count) is dropped silently — no state change
and no reply, in particular no bounds-error message; the UDP variant has no
bounds check at all: any integer choice is appended to the answer store and
becomes the player's most recent answer, displacing an earlier one. -/
theorem C6_bounds :
    (∀ (sock : Sock) (a : Int) (qid : Option Int) (fails : Sock → Bool)
      (s : TCPState), a < 1 ∨ a > 4 →
      handle_answer sock (some a) qid fails s = (s, [])) ∧
    (∀ (s : UDPState) (name : Option String) (qid : Int) (a : Int),
      udpHandle s (UIn.ans name qid (some a)) =
        ({ s with answers := answersAppend qid (name, a) s.answers }, [])) ∧
    (∀ (player : String) (a : Int) (l : List (Option String × Int)),
      latestAnswer player (l ++ [(some player, a)]) = some a) :=
  ⟨fun _ _ _ _ _ h => handle_answer_bounds h, fun _ _ _ _ => rfl,
   fun player a l => latestAnswer_append_self player a l⟩

/-- Witness for C6 at a concrete input: the out-of-range choice 7 is
silently dropped by the TCP handler. -/
theorem C6_witness :
    handle_answer 5 (some 7) (some 1) (fun _ => false)
      ⟨[(5, ⟨"alice", 1, 0⟩)], some exQ, true, []⟩ =
      (⟨[(5, ⟨"alice", 1, 0⟩)], some exQ, true, []⟩, []) :=
  C6_bounds.1 5 7 (some 1) (fun _ => false)
    ⟨[(5, ⟨"alice", 1, 0⟩)], some exQ, true, []⟩ (by decide)

/-- Counterexample to C6 as stated: in the UDP variant an out-of-range
choice (99) is stored, displaces bob's earlier correct answer, and so
changes bob's score for the question from 1 to 0. -/
theorem C6_counterexample :
    dictLookup "bob" (evalQuestion exUQ
      (udpHandle ⟨[("bob", 4)], [("bob", 0)], [(1, [(some "bob", 2)])]⟩
        (UIn.ans (some "bob") 1 (some 99))).1).1.scores = some 0 ∧
    dictLookup "bob" (evalQuestion exUQ
      ⟨[("bob", 4)], [("bob", 0)], [(1, [(some "bob", 2)])]⟩).1.scores = some 1 :=
  ⟨rfl, rfl⟩

/-- Claim C9 (code bug): the TCP handlers re-acquire the non-reentrant
session lock inside `send_leaderboard`/`broadcast` while already holding
it — the join and correct-answer paths deadlock — and `broadcast` performs
its socket sends while the lock is held, contrary to the snapshot-then-send
discipline the claim describes. -/
theorem C9_lock_discipline :
    deadlocks 0 (handleJoinSuccessLk 5 [5]) = true ∧
    deadlocks 0 (handleAnswerCorrectLk [5]) = true ∧
    sendsUnderLock 0 (broadcastLk [5]) = true :=
  ⟨rfl, rfl, rfl⟩

/-- Claim C10: a UDP re-registration with an existing name replaces the
stored endpoint with the sender's address, leaves the player's score (and
every other client) unchanged, and sends nothing back. -/
theorem C10_reregister (name : String) (addr : Addr) (s : UDPState) (v : Nat)
    (hname : name ≠ "") (hv : dictLookup name s.scores = some v) :
    udpHandle s (UIn.reg (some name) addr) =
      ({ s with clients := dictInsert name addr s.clients }, []) ∧
    dictLookup name (dictInsert name addr s.clients) = some addr ∧
    ∀ n2, n2 ≠ name → dictLookup n2 (dictInsert name addr s.clients) =
      dictLookup n2 s.clients := by
  refine ⟨?_, dictLookup_dictInsert_self,
    fun n2 h2 => dictLookup_dictInsert_ne (fun he => h2 he.symm)⟩
  show (if name = "" then (s, ([] : List (Addr × UMsg))) else
    ({ s with clients := dictInsert name addr s.clients,
              scores := dictSetdefault name 0 s.scores }, [])) = _
  rw [if_neg hname, dictSetdefault_of_isSome (by rw [hv]; rfl)]

/-- Witness for C10 at a concrete input: re-registering alice from address
9 updates her endpoint and keeps her score 5. -/
theorem C10_witness :
    udpHandle ⟨[("alice", 3)], [("alice", 5)], []⟩ (UIn.reg (some "alice") 9) =
      (⟨[("alice", 9)], [("alice", 5)], []⟩, []) :=
  (C10_reregister "alice" 9 ⟨[("alice", 3)], [("alice", 5)], []⟩ 5
    (by decide) rfl).1.trans rfl

/-- Claim C1 (amended): in the TCP variant every accepted correct answer
adds exactly 10 to the answering socket's score, so after a full round each
still-registered client's score is 10 times its accepted correct answers,
and the final broadcast's score map is exactly the `username ↦ score`
listing of the registered clients; in the UDP variant a question adds
exactly 1 (not 10) to a player's score when the player's most recent stored
answer equals the correct index, and nothing otherwise. -/
theorem C1_scoring :
    (∀ (fails : Sock → Bool) (total idx : Nat)
      (pairs : List (Question × List AnsEvent)) (s : TCPState),
      keysNodup s → (∀ p ∈ s.clients, p.2.score = 0) →
      ∀ p ∈ (runRound fails total idx pairs s).1.clients,
        p.2.score = 10 * countAC (runRound fails total idx pairs s).2 p.1) ∧
    (∀ s' : TCPState, namesNodup s' →
      getLeaderboard s' = s'.clients.map (fun p => (p.2.username, p.2.score))) ∧
    (∀ (q : UQuestion) (s : UDPState) (name : String),
      (s.scores.map Prod.fst).Nodup →
      dictLookup name (evalQuestion q s).1.scores =
        (dictLookup name s.scores).map
          (fun v => if latestAnswer name ((dictLookup q.id s.answers).getD [])
              == some q.answer then v + 1 else v)) := by
  refine ⟨?_, fun s' h => getLeaderboard_eq h, fun q s name h => evalQuestion_scores h name⟩
  intro fails total idx pairs s hk hzero p hp
  obtain ⟨hd, hkf⟩ := runRound_props fails total idx pairs s hk
  have hlook : dictLookup p.1 (runRound fails total idx pairs s).1.clients = some p.2 :=
    dictLookup_eq_some_of_mem hkf (by rw [Prod.mk.eta]; exact hp)
  obtain ⟨info0, hl0, hu0, hs0⟩ := hd p.1 p.2 hlook
  have hz : info0.score = 0 := hzero (p.1, info0) (mem_of_dictLookup_eq_some hl0)
  rw [hs0, hz, Nat.zero_add]

/-- Witness for C1 at a concrete input: alice (socket 5) answers question
1 correctly; her final score is 10 times her single accepted correct
answer. -/
theorem C1_witness :
    ((5 : Sock), (⟨"alice", 1, 10⟩ : ClientInfo)) ∈
      (runRound (fun _ => false) 1 1 [(exQ, [⟨5, some 2, some 1⟩])]
        ⟨[(5, ⟨"alice", 1, 0⟩)], none, false, []⟩).1.clients ∧
    (10 : Nat) = 10 * countAC
      (runRound (fun _ => false) 1 1 [(exQ, [⟨5, some 2, some 1⟩])]
        ⟨[(5, ⟨"alice", 1, 0⟩)], none, false, []⟩).2 5 := by
  have hmem : ((5 : Sock), (⟨"alice", 1, 10⟩ : ClientInfo)) ∈
      (runRound (fun _ => false) 1 1 [(exQ, [⟨5, some 2, some 1⟩])]
        ⟨[(5, ⟨"alice", 1, 0⟩)], none, false, []⟩).1.clients := by
    rw [show (runRound (fun _ => false) 1 1 [(exQ, [⟨5, some 2, some 1⟩])]
        ⟨[(5, ⟨"alice", 1, 0⟩)], none, false, []⟩).1.clients =
      [(5, ⟨"alice", 1, 10⟩)] from rfl]
    exact List.mem_cons_self _ _
  refine ⟨hmem, ?_⟩
  exact C1_scoring.1 (fun _ => false) 1 1 [(exQ, [⟨5, some 2, some 1⟩])]
    ⟨[(5, ⟨"alice", 1, 0⟩)], none, false, []⟩
    (by show (List.map Prod.fst [((5 : Sock), (⟨"alice", 1, 0⟩ : ClientInfo))]).Nodup
        decide)
    (by decide) (5, ⟨"alice", 1, 10⟩) hmem

/-- Counterexample to C1 as stated: in the UDP variant alice's accepted
correct answer raises her score by 1, not by 10. -/
theorem C1_counterexample :
    dictLookup "alice" (udpGameLoop (fun _ => false)
        [(exUQ, [UIn.ans (some "alice") 1 (some 2)])]
        ⟨[("alice", 7)], [("alice", 0)], []⟩).1.scores = some 1 ∧
    dictLookup "alice" (udpGameLoop (fun _ => false)
        [(exUQ, [UIn.ans (some "alice") 1 (some 2)])]
        ⟨[("alice", 7)], [("alice", 0)], []⟩).1.scores ≠ some 10 := by
  have h1 : dictLookup "alice" (udpGameLoop (fun _ => false)
      [(exUQ, [UIn.ans (some "alice") 1 (some 2)])]
      ⟨[("alice", 7)], [("alice", 0)], []⟩).1.scores = some 1 := rfl
  refine ⟨h1, ?_⟩
  rw [h1]
  simp

/-- Claim C2 (amended): in the TCP variant a registration with an
empty-after-trim or already-present name sends an error and closes the
connection without touching the registry, and any join preserves username
uniqueness; in the UDP variant registration preserves name uniqueness (the
name is the dict key) but a duplicate name is silently re-registered
(endpoint overwritten, no rejection) and an empty name is silently
dropped. -/
theorem C2_registration :
    (∀ (raw : String) (sock : Sock) (addr : Addr) (fails : Sock → Bool)
      (s : TCPState), pyStrip raw = "" →
      handle_join raw sock addr fails s =
        (s, [Ev.out (Out.send sock (Msg.error "Username cannot be empty")),
             Ev.out (Out.close sock)])) ∧
    (∀ (raw : String) (sock : Sock) (addr : Addr) (fails : Sock → Bool)
      (s : TCPState), pyStrip raw ≠ "" →
      pyStrip raw ∈ s.clients.map (fun p => p.2.username) →
      handle_join raw sock addr fails s =
        (s, [Ev.out (Out.send sock (Msg.error "Username already taken")),
             Ev.out (Out.close sock)])) ∧
    (∀ (raw : String) (sock : Sock) (addr : Addr) (fails : Sock → Bool)
      (s : TCPState), namesNodup s → namesNodup (handle_join raw sock addr fails s).1) ∧
    (∀ (i : UIn) (s : UDPState), (s.clients.map Prod.fst).Nodup →
      (((udpHandle s i).1.clients).map Prod.fst).Nodup) :=
  ⟨fun _ _ _ _ _ h => handle_join_empty h,
   fun _ _ _ _ _ h hd => handle_join_dup h hd,
   fun _ _ _ _ _ h => handle_join_namesNodup h,
   fun _ _ h => udpHandle_keysNodup h⟩

/-- Witness for C2 at a concrete input: a second "alice" is rejected with
an error and a close, and the registry keeps exactly one alice. -/
theorem C2_witness :
    handle_join "alice" 6 2 (fun _ => false)
      ⟨[(5, ⟨"alice", 1, 0⟩)], none, false, []⟩ =
      (⟨[(5, ⟨"alice", 1, 0⟩)], none, false, []⟩,
       [Ev.out (Out.send 6 (Msg.error "Username already taken")),
        Ev.out (Out.close 6)]) ∧
    handle_join "  " 6 2 (fun _ => false)
      ⟨[(5, ⟨"alice", 1, 0⟩)], none, false, []⟩ =
      (⟨[(5, ⟨"alice", 1, 0⟩)], none, false, []⟩,
       [Ev.out (Out.send 6 (Msg.error "Username cannot be empty")),
        Ev.out (Out.close 6)]) :=
  ⟨C2_registration.2.1 "alice" 6 2 (fun _ => false)
      ⟨[(5, ⟨"alice", 1, 0⟩)], none, false, []⟩ (by decide) (by decide),
   C2_registration.1 "  " 6 2 (fun _ => false)
      ⟨[(5, ⟨"alice", 1, 0⟩)], none, false, []⟩ (by decide)⟩

/-- Counterexample to C2 as stated: in the UDP variant a registration with
the already-present name "alice" mutates the registry (the endpoint is
replaced) and no rejection message is sent. -/
theorem C2_counterexample :
    (udpHandle ⟨[("alice", 3)], [("alice", 5)], []⟩
        (UIn.reg (some "alice") 9)).1.clients = [("alice", 9)] ∧
    (udpHandle ⟨[("alice", 3)], [("alice", 5)], []⟩
        (UIn.reg (some "alice") 9)).2 = [] ∧
    (udpHandle ⟨[("alice", 3)], [("alice", 5)], []⟩
        (UIn.reg (some "alice") 9)).1.clients ≠ [("alice", 3)] :=
  ⟨rfl, rfl, by decide⟩

/-- Claim C7: in each variant's question loop the answer store of the open
question is reset exactly once per question — the trace carries one reset
per question, and every reset sits immediately at the point where its
question becomes current, never elsewhere. -/
theorem C7_reset_once :
    (∀ (fails : Sock → Bool) (total idx : Nat)
      (pairs : List (Question × List AnsEvent)) (s : TCPState), keysNodup s →
      countClears (runRound fails total idx pairs s).2 = pairs.length ∧
      clearsOnlyAtOpen (runRound fails total idx pairs s).2 = true) ∧
    (∀ (fails : Addr → Bool) (qins : List (UQuestion × List UIn)) (s : UDPState),
      countResets (udpRound fails qins s).2 = qins.length ∧
      resetsOnlyAtOpen (udpRound fails qins s).2 = true) :=
  ⟨fun fails total idx pairs s h => runRound_trace_clears fails total idx pairs s h,
   fun fails qins s => udpRound_trace_resets fails qins s⟩

/-- Witness for C7 at a concrete input: a one-question round clears
`answered` exactly once, right at the question's opening. -/
theorem C7_witness :
    countClears (runRound (fun _ => false) 1 1 [(exQ, [])]
      ⟨[(5, ⟨"alice", 1, 0⟩)], none, false, []⟩).2 = 1 ∧
    clearsOnlyAtOpen (runRound (fun _ => false) 1 1 [(exQ, [])]
      ⟨[(5, ⟨"alice", 1, 0⟩)], none, false, []⟩).2 = true :=
  C7_reset_once.1 (fun _ => false) 1 1 [(exQ, [])]
    ⟨[(5, ⟨"alice", 1, 0⟩)], none, false, []⟩
    (by show (List.map Prod.fst [((5 : Sock), (⟨"alice", 1, 0⟩ : ClientInfo))]).Nodup
        decide)

/-- Claim C8 (amended): the TCP broadcast attempts a send to every
registered socket (in dict order) and removes exactly the failing sockets,
only after the sweep, surfacing no failure to the caller; the UDP broadcast
attempts a send to every registered endpoint and removes nobody — send
failures are swallowed inside `send_udp_json`, so no deregistration
happens. -/
theorem C8_broadcast (m : Msg) (fails : Sock → Bool) (s : TCPState)
    (hn : keysNodup s) :
    ((broadcastT m fails s).2 = s.clients.map (fun p => Ev.out (Out.send p.1 m)) ∧
     (broadcastT m fails s).1.clients = s.clients.filter (fun p => !(fails p.1))) ∧
    (∀ (um : UMsg) (ufails : Addr → Bool) (us : UDPState),
      udpBroadcast um ufails us = (us, us.clients.map (fun p => UEv.send p.2 um))) :=
  ⟨⟨broadcastT_trace m fails s, broadcastT_clients hn⟩, fun _ _ _ => rfl⟩

/-- Witness for C8 at a concrete input: with socket 6 failing, both sockets
still get a send attempt and only socket 6 is removed, after the sweep. -/
theorem C8_witness :
    (broadcastT (Msg.leaderboard []) (fun k => k == 6)
      ⟨[(5, ⟨"alice", 1, 0⟩), (6, ⟨"bob", 2, 0⟩)], none, false, []⟩).2 =
      [Ev.out (Out.send 5 (Msg.leaderboard [])),
       Ev.out (Out.send 6 (Msg.leaderboard []))] ∧
    (broadcastT (Msg.leaderboard []) (fun k => k == 6)
      ⟨[(5, ⟨"alice", 1, 0⟩), (6, ⟨"bob", 2, 0⟩)], none, false, []⟩).1.clients =
      [(5, ⟨"alice", 1, 0⟩)] := by
  have h := C8_broadcast (Msg.leaderboard []) (fun k => k == 6)
    ⟨[(5, ⟨"alice", 1, 0⟩), (6, ⟨"bob", 2, 0⟩)], none, false, []⟩
    (by show (List.map Prod.fst [((5 : Sock), (⟨"alice", 1, 0⟩ : ClientInfo)),
          ((6 : Sock), (⟨"bob", 2, 0⟩ : ClientInfo))]).Nodup
        decide)
  exact ⟨h.1.1.trans rfl, h.1.2.trans rfl⟩

/-- Counterexample to C8 as stated: in the UDP variant an endpoint whose
send fails (address 7) stays registered — nobody is deregistered. -/
theorem C8_counterexample :
    (udpBroadcast (UMsg.final []) (fun a => a == 7)
        ⟨[("bob", 7)], [("bob", 0)], []⟩).1.clients = [("bob", 7)] ∧
    (udpBroadcast (UMsg.final []) (fun a => a == 7)
        ⟨[("bob", 7)], [("bob", 0)], []⟩).1.clients ≠ [] :=
  ⟨rfl, by decide⟩

end QuizNet
